import Mathlib

/-!
Verification of the two maintenance scripts in this repository.

Script A (`src/scripts/clean-integrations.py`) applies an ordered sequence of
regex substitutions to one route file.  Script B
(`src/scripts/fix-inline-mocks.py`) rewrites a legacy inline mock block in
test files.

The Python regexes used by the scripts contain only literals, character
classes, greedy and lazy stars over character classes, an optional
single-character item, and one capture group.  We embed exactly this fragment:
a token list compiled (by `List.foldr`) to a continuation-passing matcher
whose backtracking order coincides with Python preference order (greedy
quantifiers try longer consumptions first, lazy ones shorter first, and the
overall search is leftmost).  `re.sub` (replace every leftmost
non-overlapping match, resuming after the replaced text, never rescanning the
replacement) and `re.search` (leftmost match, with the text of group 1) are
embedded on top of the matcher.  Strings are lists of characters; the Python
class `\s` is modelled by its ASCII members, which covers the source files the
scripts target.
-/

set_option maxRecDepth 8000

namespace Scripts

abbrev Str := List Char

/-- Matcher state: position where group 1 opened (as the remaining suffix) and
the text captured by group 1, if closed. -/
structure MState where
  openAt : Option Str
  grp : Option Str

def st0 : MState := ⟨none, none⟩

/-- Regex tokens for the fragment used by the scripts: a literal character, a
single character from a class, a greedy or lazy star over a class, a greedy or
lazy optional class character, and the two markers of capture group 1. -/
inductive Tok where
  | ch : Char → Tok
  | cls : (Char → Bool) → Tok
  | star : Bool → (Char → Bool) → Tok
  | opt : Bool → (Char → Bool) → Tok
  | grpOpen : Tok
  | grpClose : Tok

/-- A matcher continuation: given the state and the remaining input, produce
the suffix left after a successful match together with group 1. -/
abbrev Cont := MState → Str → Option (Str × Option Str)

/-- Length of the maximal run of characters of class `p` at the front. -/
def classRun (p : Char → Bool) : Str → Nat
  | [] => 0
  | c :: t => if p c then classRun p t + 1 else 0

/-- Candidate consumption counts for a star over a class, in Python preference
order: greedy tries the longest first, lazy the shortest first. -/
def ways (greedy : Bool) (n : Nat) : List Nat :=
  if greedy then (List.range (n + 1)).reverse else List.range (n + 1)

/-- Interpret one token in front of a continuation, mirroring Python
backtracking: each alternative consumption is offered to the continuation in
preference order, and the first one that lets the rest of the pattern match
wins. -/
def stepTok (t : Tok) (k : Cont) : Cont :=
  match t with
  | .ch c => fun st s =>
      match s with
      | [] => none
      | x :: r => if x = c then k st r else none
  | .cls p => fun st s =>
      match s with
      | [] => none
      | x :: r => if p x then k st r else none
  | .star g p => fun st s =>
      (ways g (classRun p s)).findSome? fun j => k st (s.drop j)
  | .opt g p => fun st s =>
      match s with
      | [] => k st []
      | x :: r =>
        if p x then
          if g then (k st r).orElse fun _ => k st (x :: r)
          else (k st (x :: r)).orElse fun _ => k st r
        else k st (x :: r)
  | .grpOpen => fun st s => k ⟨some s, st.grp⟩ s
  | .grpClose => fun st s =>
      match st.openAt with
      | some o => k ⟨none, some (o.take (o.length - s.length))⟩ s
      | none => k st s

/-- Compile a token list to a matcher anchored at the current position. -/
def mkMatcher (toks : List Tok) : Cont :=
  toks.foldr stepTok fun st s => some (s, st.grp)

/-- Tokens of a literal string. -/
def litToks (w : Str) : List Tok := w.map Tok.ch

/-- Fuelled core of `re.sub`: scan left to right; at a match emit the
replacement and resume after the consumed text (after one character for an
empty match, as Python does); otherwise copy one character.  The fuel only
serves termination; `subAll` supplies enough for it never to run out. -/
def subAllF (m : Cont) (r : Str) : Nat → Str → Str
  | 0, s => s
  | _ + 1, [] => if (m st0 []).isSome then r else []
  | f + 1, c :: t =>
    match m st0 (c :: t) with
    | some pr =>
      if pr.1.length < t.length + 1 then r ++ subAllF m r f pr.1
      else r ++ c :: subAllF m r f t
    | none => c :: subAllF m r f t

/-- Python `pattern.sub(r, s)`: replace every leftmost non-overlapping match. -/
def subAll (m : Cont) (r : Str) (s : Str) : Str := subAllF m r (s.length + 1) s

/-- Python `pattern.search(s)` restricted to what the scripts use: `none` when
there is no match, otherwise the (optional) text of capture group 1 of the
leftmost match. -/
def searchCaptureM (m : Cont) : Str → Option (Option Str)
  | [] => (m st0 []).map fun pr => pr.2
  | c :: t =>
    match m st0 (c :: t) with
    | some pr => some pr.2
    | none => searchCaptureM m t

/-- Python substring containment `w in s`. -/
def strContains : Str → Str → Bool
  | [], w => w.isPrefixOf []
  | c :: t, w => w.isPrefixOf (c :: t) || strContains t w

/-- No match of `m` starts strictly inside `a` when the input is `a ++ tail`. -/
def noMatchFrom (m : Cont) : Str → Str → Bool
  | [], _ => true
  | c :: t, tail => (m st0 (c :: (t ++ tail))).isNone && noMatchFrom m t tail

/- ### Character classes appearing in the scripts -/

def anyC : Char → Bool := fun _ => true

def isSpaceB : Char → Bool := fun c =>
  c == ' ' || c == '\t' || c == '\n' || c == '\r' || c == '\x0b' || c == '\x0c'

def quoteChar : Char := Char.ofNat 39

def isQuote : Char → Bool := fun c => c == '"' || c == quoteChar

def notQuote : Char → Bool := fun c => !(isQuote c)

def notCurly : Char → Bool := fun c => !(c == '\x7d')

def isComma : Char → Bool := fun c => c == ','

def notCommaSpace : Char → Bool := fun c => !(c == ',' || isSpaceB c)

/- ### Script B (`fix-inline-mocks.py`) -/

/-- Tokens of `old_pattern`, the legacy mock-construction block regex.  The
`DOTALL` and `MULTILINE` flags of the source are inert here: the pattern
contains no unescaped dot and no anchor. -/
def oldToks : List Tok :=
  litToks ("vi.mocked(orgContext.requireOrgContext).mockResolvedValue(\x7b").toList ++
  [Tok.star true notCurly] ++
  litToks ("tenant:").toList ++
  [Tok.star true isSpaceB, Tok.ch '\x7b', Tok.cls notCurly, Tok.star true notCurly] ++
  litToks ("\x7d,").toList ++
  [Tok.star true notCurly] ++
  litToks ("organizationId:").toList ++
  [Tok.star true isSpaceB, Tok.grpOpen, Tok.cls notCommaSpace,
   Tok.star true notCommaSpace, Tok.grpClose, Tok.opt true isComma,
   Tok.star true notCurly, Tok.ch '\x7d', Tok.star true isSpaceB] ++
  litToks ("as").toList ++
  [Tok.cls isSpaceB, Tok.star true isSpaceB] ++
  litToks ("any);").toList

def oldM : Cont := mkMatcher oldToks

/-- Tokens of the `const mockOrganizationId = (["\x27][^"\x27]+["\x27]);`
pattern; group 1 captures the value including its quotes. -/
def mockVarToks : List Tok :=
  litToks ("const mockOrganizationId = ").toList ++
  [Tok.grpOpen, Tok.cls isQuote, Tok.cls notQuote, Tok.star true notQuote,
   Tok.cls isQuote, Tok.grpClose, Tok.ch ';']

def mockVarM : Cont := mkMatcher mockVarToks

/-- Text of `new_template` before the spliced org id (after Python
`str.format` has turned the doubled braces into single ones). -/
def tmplPre : Str :=
  ("vi.mocked(orgContext.requireOrgContext).mockResolvedValue(\x7b\n      org: \x7b id: ").toList

/-- Text of `new_template` after the spliced org id. -/
def tmplPost : Str :=
  (", name: \"Test Org\", slug: \"test\", createdAt: new Date() \x7d,\n      user: \x7b id: \"user-1\", email: \"owner@example.com\", name: \"Owner\" \x7d,\n      session: \x7b id: \"session-1\" \x7d,\n      membership: \x7b id: \"member-1\", role: \"owner\" \x7d,\n      subscription: null,\n      limits: \x7b\n        customers: 50, bookingsPerMonth: 100, tours: 10, teamMembers: 1,\n        hasPOS: true, hasEquipmentRentals: true, hasAdvancedReports: false, hasEmailNotifications: false,\n      \x7d,\n      usage: \x7b customers: 0, tours: 0, bookingsThisMonth: 0 \x7d,\n      canAddCustomer: true, canAddTour: true, canAddBooking: true, isPremium: false,\n    \x7d as any);").toList

/-- `new_template.format(org_id=o)`. -/
def newTemplate (o : Str) : Str := tmplPre ++ o ++ tmplPost

def markerLong : Str := ("tenant: \x7b id:").toList

def markerShort : Str := ("tenant: \x7b").toList

/-- The two-part candidate test of lines 40-41: the file is processed exactly
when `tenant: \x7b id:` or `tenant: \x7b` occurs in the content (negation of
the `continue` condition). -/
def markerCandidate (c : Str) : Bool :=
  strContains c markerLong || strContains c markerShort

def defaultOrgId : Str := ("\"org-uuid-123\"").toList

/-- Org-identifier selection of lines 43-53: the `mockOrganizationId`
assignment if it matches, else group 1 of the legacy block, else the default
literal. -/
def orgIdOf (c : Str) : Str :=
  match searchCaptureM mockVarM c with
  | some g => g.getD []
  | none =>
    match searchCaptureM oldM c with
    | some g => g.getD []
    | none => defaultOrgId

/-- Per-file content transformation of Script B: skip unless a marker is
present, otherwise substitute the legacy block(s) with the filled-in template;
the boolean records whether the file was written (content changed). -/
def processContent (c : Str) : Str × Bool :=
  if markerCandidate c then
    let nc := subAll oldM (newTemplate (orgIdOf c)) c
    if nc = c then (c, false) else (nc, true)
  else (c, false)

/-- Whole-run model of Script B: each file is a path together with `some`
content (the read and write succeed) or `none` (some exception is raised while
processing it).  Returns the final count of fixed files and the per-file
console messages in order; an exception yields an error message naming the
path and processing continues. -/
def runB : List (String × Option Str) → Nat × List String
  | [] => (0, [])
  | (p, none) :: rest =>
    let r := runB rest
    (r.1, ("Error processing " ++ p) :: r.2)
  | (p, some c) :: rest =>
    let pc := processContent c
    let r := runB rest
    if pc.2 then (r.1 + 1, ("Fixed " ++ p) :: r.2) else (r.1, r.2)

/- ### Script A (`clean-integrations.py`) -/

def lit4A : Str := ("const apiKeysList = await listApiKeys(ctx.org.id);").toList

def r4A : Str := ("// DIVE-031: Removed API keys loading").toList

def m4A : Cont := mkMatcher (litToks lit4A)

/-- The three substitutions preceding the API-keys loader removal, in source
order: the `WebhookEventType` type alias and the two interface removals, each
a literal head followed by a lazy any-character star up to a closing literal
(`DOTALL` makes the dot match newlines, hence `anyC`). -/
def pattsA1 : List (Cont × Str) :=
  [(mkMatcher (litToks ("type WebhookEventType = ").toList ++ [Tok.star false anyC, Tok.ch ';']),
    ("// DIVE-031: Removed WebhookEventType").toList),
   (mkMatcher (litToks ("interface ApiKeyPermissions \x7b").toList ++ [Tok.star false anyC, Tok.ch '\x7d']),
    ("// DIVE-031: Removed ApiKeyPermissions interface").toList),
   (mkMatcher (litToks ("interface ApiKeyDisplay \x7b").toList ++ [Tok.star false anyC, Tok.ch '\x7d']),
    ("// DIVE-031: Removed ApiKeyDisplay interface").toList)]

/-- The eleven substitutions following the API-keys loader removal, in source
order: the webhooks loader line, the four return-statement fields, the two
action-handler blocks, and the four destructuring removals (a literal followed
by a greedy whitespace star, replaced by the empty string). -/
def pattsA2 : List (Cont × Str) :=
  [(mkMatcher (litToks ("const webhooksList = await listWebhooks(ctx.org.id);").toList),
    ("// DIVE-031: Removed webhooks loading").toList),
   (mkMatcher (litToks ("apiKeys: apiKeysList,").toList),
    ("// DIVE-031: Removed apiKeys").toList),
   (mkMatcher (litToks ("webhooks: webhooksList,").toList),
    ("// DIVE-031: Removed webhooks").toList),
   (mkMatcher (litToks ("webhookEvents: WEBHOOK_EVENTS,").toList),
    ("// DIVE-031: Removed webhookEvents").toList),
   (mkMatcher (litToks ("webhookEventDescriptions: WEBHOOK_EVENT_DESCRIPTIONS,").toList),
    ("// DIVE-031: Removed webhookEventDescriptions").toList),
   (mkMatcher (litToks ("// API Key actions").toList ++ [Tok.star false anyC] ++
      litToks ("if (intent === \"revokeApiKey\") \x7b").toList ++ [Tok.star false anyC, Tok.ch '\x7d']),
    ("// DIVE-031: Removed API key action handlers").toList),
   (mkMatcher (litToks ("if (intent === \"createWebhook\") \x7b").toList ++ [Tok.star false anyC] ++
      litToks ("if (intent === \"regenerateWebhookSecret\") \x7b").toList ++ [Tok.star false anyC, Tok.ch '\x7d']),
    ("// DIVE-031: Removed webhook action handlers").toList),
   (mkMatcher (litToks ("apiKeys,").toList ++ [Tok.star true isSpaceB]), []),
   (mkMatcher (litToks ("webhooks,").toList ++ [Tok.star true isSpaceB]), []),
   (mkMatcher (litToks ("webhookEvents,").toList ++ [Tok.star true isSpaceB]), []),
   (mkMatcher (litToks ("webhookEventDescriptions,").toList ++ [Tok.star true isSpaceB]), [])]

/-- All fifteen substitutions of Script A in source order. -/
def pattsA : List (Cont × Str) := pattsA1 ++ (m4A, r4A) :: pattsA2

def stepSub (s : Str) (pr : Cont × Str) : Str := subAll pr.1 pr.2 s

/-- The full text transformation of Script A. -/
def cleanA (c : Str) : Str := pattsA.foldl stepSub c

def successMsgA : String :=
  "Successfully removed API keys and webhooks code from integrations.tsx"

def noopMsgA : String := "No changes made - patterns may have already been removed"

/-- One run of Script A on a file content: the content written back (or kept),
whether the file was written, and the console message. -/
def mainA (c : Str) : Str × Bool × String :=
  let nc := cleanA c
  if nc = c then (c, false, noopMsgA) else (nc, true, successMsgA)

/-- No pattern of the given list matches anywhere in `s`. -/
def allNone (L : List (Cont × Str)) (s : Str) : Bool :=
  L.all fun pr => (searchCaptureM pr.1 s).isNone

/-- No pattern of Script A matches anywhere in `s`. -/
def noMatchAllA (s : Str) : Bool := allNone pattsA s

/- ### General lemmas about the embedded `re` operations -/

theorem searchCaptureM_nil_none {m : Cont} (h : searchCaptureM m [] = none) :
    m st0 [] = none := by
  rcases h0 : m st0 [] with _ | pr
  · rfl
  · rw [searchCaptureM, h0] at h
    simp at h

theorem searchCaptureM_cons_none {m : Cont} {c : Char} {t : Str}
    (h : searchCaptureM m (c :: t) = none) :
    m st0 (c :: t) = none ∧ searchCaptureM m t = none := by
  rcases h0 : m st0 (c :: t) with _ | pr
  · rw [searchCaptureM, h0] at h
    exact ⟨rfl, h⟩
  · rw [searchCaptureM, h0] at h
    simp at h

/-- With no match anywhere, `re.sub` is the identity, for any fuel. -/
theorem subAllF_eq_of_nomatch (m : Cont) (r : Str) :
    ∀ (f : Nat) (s : Str), searchCaptureM m s = none → subAllF m r f s = s := by
  intro f
  induction f with
  | zero => intro s _; rfl
  | succ f ih =>
    intro s h
    cases s with
    | nil => simp [subAllF, searchCaptureM_nil_none h]
    | cons c t =>
      obtain ⟨h1, h2⟩ := searchCaptureM_cons_none h
      simp only [subAllF, h1]
      rw [ih t h2]

/-- With no match anywhere, `re.sub` is the identity. -/
theorem subAll_eq_of_nomatch (m : Cont) (r : Str) (s : Str)
    (h : searchCaptureM m s = none) : subAll m r s = s :=
  subAllF_eq_of_nomatch m r (s.length + 1) s h

/-- A fold of substitutions none of which matches `s` leaves `s` unchanged. -/
theorem foldl_stepSub_eq_of_allNone :
    ∀ (L : List (Cont × Str)) (s : Str), allNone L s = true →
      L.foldl stepSub s = s := by
  intro L
  induction L with
  | nil => intro s _; rfl
  | cons pr L ih =>
    intro s h
    simp only [allNone, List.all_cons, Bool.and_eq_true] at h
    obtain ⟨h1, h2⟩ := h
    have hs : subAll pr.1 pr.2 s = s :=
      subAll_eq_of_nomatch pr.1 pr.2 s (Option.isNone_iff_eq_none.mp h1)
    rw [List.foldl_cons]
    rw [show stepSub s pr = s from hs]
    exact ih s h2

/-- The result of `subAllF` does not depend on the fuel, given enough of it. -/
theorem subAllF_fuel (m : Cont) (r : Str) :
    ∀ (f1 : Nat) (s : Str) (f2 : Nat), s.length < f1 → s.length < f2 →
      subAllF m r f1 s = subAllF m r f2 s := by
  intro f1
  induction f1 with
  | zero => intro s f2 h1 _; exact absurd h1 (Nat.not_lt_zero _)
  | succ f1 ih =>
    intro s f2 h1 h2
    cases f2 with
    | zero => exact absurd h2 (Nat.not_lt_zero _)
    | succ f2 =>
      cases s with
      | nil => rfl
      | cons c t =>
        rcases h0 : m st0 (c :: t) with _ | pr
        · simp only [subAllF, h0]
          rw [ih t f2 (by simp at h1 ⊢; omega) (by simp at h2 ⊢; omega)]
        · simp only [subAllF, h0]
          by_cases hl : pr.1.length < t.length + 1
          · rw [if_pos hl, if_pos hl,
              ih pr.1 f2 (by simp at h1 ⊢; omega) (by simp at h2 ⊢; omega)]
          · rw [if_neg hl, if_neg hl,
              ih t f2 (by simp at h1 ⊢; omega) (by simp at h2 ⊢; omega)]

/-- Decomposition of `re.sub`: when no match starts inside `a` and `mm` is a
nonempty full match leaving `rest`, the substitution rewrites `mm` to the
replacement and continues on `rest` — in particular it does not stop after a
first match. -/
theorem subAllF_decomp (m : Cont) (r : Str) :
    ∀ (a : Str) (f : Nat) (mm rest : Str) (g : Option Str),
      (a ++ (mm ++ rest)).length < f →
      noMatchFrom m a (mm ++ rest) = true →
      m st0 (mm ++ rest) = some (rest, g) →
      mm ≠ [] →
      subAllF m r f (a ++ (mm ++ rest)) = a ++ r ++ subAll m r rest := by
  intro a
  induction a with
  | nil =>
    intro f mm rest g hf _ hm hmm
    cases mm with
    | nil => exact absurd rfl hmm
    | cons c mt =>
      cases f with
      | zero => exact absurd hf (Nat.not_lt_zero _)
      | succ f =>
        simp only [List.nil_append, List.cons_append] at hf hm ⊢
        simp only [subAllF, hm]
        rw [if_pos (by simp; omega)]
        rw [subAllF_fuel m r f rest (rest.length + 1)
          (by simp at hf; omega) (Nat.lt_succ_self _)]
        rfl
  | cons x a ih =>
    intro f mm rest g hf hnm hm hmm
    cases f with
    | zero => exact absurd hf (Nat.not_lt_zero _)
    | succ f =>
      simp only [noMatchFrom, Bool.and_eq_true] at hnm
      obtain ⟨hx, hrest⟩ := hnm
      have hx2 : m st0 (x :: (a ++ (mm ++ rest))) = none :=
        Option.isNone_iff_eq_none.mp hx
      rw [List.cons_append]
      simp only [subAllF, hx2]
      rw [ih f mm rest g (by simp at hf ⊢; omega) hrest hm hmm]
      simp

/-- Decomposition of `re.sub`, stated for the wrapper. -/
theorem subAll_decomp (m : Cont) (r : Str) (a mm rest : Str) (g : Option Str)
    (hnm : noMatchFrom m a (mm ++ rest) = true)
    (hm : m st0 (mm ++ rest) = some (rest, g))
    (hmm : mm ≠ []) :
    subAll m r (a ++ (mm ++ rest)) = a ++ r ++ subAll m r rest :=
  subAllF_decomp m r a ((a ++ (mm ++ rest)).length + 1) mm rest g
    (Nat.lt_succ_self _) hnm hm hmm

/-- A purely literal pattern matches exactly when the word is a prefix, and
consumes exactly the word. -/
theorem litToks_foldr :
    ∀ (w : Str) (k : Cont) (st : MState) (s : Str),
      (litToks w).foldr stepTok k st s =
        if w.isPrefixOf s then k st (s.drop w.length) else none := by
  intro w
  induction w with
  | nil =>
    intro k st s
    simp [litToks, List.isPrefixOf]
  | cons c w ih =>
    intro k st s
    cases s with
    | nil => simp [litToks, stepTok, List.isPrefixOf]
    | cons x t =>
      simp only [litToks, List.map_cons, List.foldr_cons]
      show stepTok (Tok.ch c) ((litToks w).foldr stepTok k) st (x :: t) = _
      by_cases hxc : x = c
      · subst hxc
        simp only [stepTok, if_pos rfl]
        rw [ih k st t]
        simp [List.isPrefixOf_cons₂, List.isPrefixOf]
      · simp only [stepTok, if_neg hxc]
        have : (c == x) = false := by
          simp [Ne.symm hxc]
        simp [List.isPrefixOf, this]

theorem mkMatcher_lit (w : Str) (st : MState) (s : Str) :
    mkMatcher (litToks w) st s =
      if w.isPrefixOf s then some (s.drop w.length, st.grp) else none :=
  litToks_foldr w _ st s

/-- A literal pattern occurring in the text is found by the search. -/
theorem searchCaptureM_lit_isSome :
    ∀ (s w : Str), strContains s w = true →
      searchCaptureM (mkMatcher (litToks w)) s ≠ none := by
  intro s
  induction s with
  | nil =>
    intro w h
    rw [strContains] at h
    rw [searchCaptureM, mkMatcher_lit, if_pos h]
    simp
  | cons c t ih =>
    intro w h
    rw [strContains, Bool.or_eq_true] at h
    rcases h with h | h
    · rw [searchCaptureM, mkMatcher_lit, if_pos h]
      simp
    · rw [searchCaptureM, mkMatcher_lit]
      by_cases hp : w.isPrefixOf (c :: t)
      · rw [if_pos hp]; simp
      · rw [if_neg hp]; exact ih w h

/-- When every match consumes at least the replacement length, `re.sub` does
not lengthen the text. -/
theorem subAllF_length_le (m : Cont) (r : Str)
    (hm : ∀ s pr, m st0 s = some pr → pr.1.length + r.length ≤ s.length) :
    ∀ (f : Nat) (s : Str), (subAllF m r f s).length ≤ s.length := by
  intro f
  induction f with
  | zero => intro s; exact Nat.le_refl _
  | succ f ih =>
    intro s
    cases s with
    | nil =>
      rcases h0 : m st0 [] with _ | pr
      · simp [subAllF, h0]
      · have := hm [] pr h0
        simp at this
        simp [subAllF, h0, this.2]
    | cons c t =>
      rcases h0 : m st0 (c :: t) with _ | pr
      · simp only [subAllF, h0]
        simpa using Nat.succ_le_succ (ih t)
      · have hc := hm (c :: t) pr h0
        simp only [subAllF, h0]
        by_cases hl : pr.1.length < t.length + 1
        · rw [if_pos hl]
          have h2 := ih pr.1
          simp only [List.length_append, List.length_cons]
          simp at hc
          omega
        · rw [if_neg hl]
          have h2 := ih t
          simp only [List.length_append, List.length_cons]
          simp at hc hl
          omega

/-- When every match strictly shrinks the text (consumes more than the
replacement length) and a match exists, `re.sub` strictly shortens the
text.  In particular the result differs from the input. -/
theorem subAllF_length_lt (m : Cont) (r : Str)
    (hm : ∀ s pr, m st0 s = some pr → pr.1.length + r.length < s.length) :
    ∀ (f : Nat) (s : Str), s.length < f → searchCaptureM m s ≠ none →
      (subAllF m r f s).length < s.length := by
  have hle : ∀ s pr, m st0 s = some pr → pr.1.length + r.length ≤ s.length :=
    fun s pr h => Nat.le_of_lt (hm s pr h)
  intro f
  induction f with
  | zero => intro s h; exact absurd h (Nat.not_lt_zero _)
  | succ f ih =>
    intro s hf hs
    cases s with
    | nil =>
      rcases h0 : m st0 [] with _ | pr
      · exact absurd (by rw [searchCaptureM, h0]; rfl) hs
      · have := hm [] pr h0
        simp at this
    | cons c t =>
      rcases h0 : m st0 (c :: t) with _ | pr
      · have ht : searchCaptureM m t ≠ none := by
          intro hn
          apply hs
          rw [searchCaptureM, h0, hn]
        simp only [subAllF, h0]
        have h2 := ih t (by simp at hf ⊢; omega) ht
        simp only [List.length_cons]
        omega
      · have hc := hm (c :: t) pr h0
        simp only [subAllF, h0]
        have hl : pr.1.length < t.length + 1 := by
          simp at hc
          omega
        rw [if_pos hl]
        have h2 := subAllF_length_le m r hle f pr.1
        simp only [List.length_append, List.length_cons]
        simp at hc
        omega

/-- When a match exists, the replacement text occurs in the output of
`re.sub`. -/
theorem subAllF_contains_repl (m : Cont) (r : Str) :
    ∀ (f : Nat) (s : Str), s.length < f → searchCaptureM m s ≠ none →
      strContains (subAllF m r f s) r = true := by
  intro f
  induction f with
  | zero => intro s h; exact absurd h (Nat.not_lt_zero _)
  | succ f ih =>
    intro s hf hs
    cases s with
    | nil =>
      rcases h0 : m st0 [] with _ | pr
      · exact absurd (by rw [searchCaptureM, h0]; rfl) hs
      · simp only [subAllF, h0, Option.isSome_some, if_true]
        have : r.isPrefixOf r = true := by
          rw [List.isPrefixOf_iff_prefix]
        cases r with
        | nil => rw [strContains]; simp
        | cons a b => rw [strContains, Bool.or_eq_true]; exact Or.inl this
    | cons c t =>
      rcases h0 : m st0 (c :: t) with _ | pr
      · have ht : searchCaptureM m t ≠ none := by
          intro hn
          apply hs
          rw [searchCaptureM, h0, hn]
        simp only [subAllF, h0]
        rw [strContains, Bool.or_eq_true]
        exact Or.inr (ih t (by simp at hf ⊢; omega) ht)
      · simp only [subAllF, h0]
        have hpre : ∀ (x : Str), r.isPrefixOf (r ++ x) = true := by
          intro x
          rw [List.isPrefixOf_iff_prefix]
          exact List.prefix_append r x
        by_cases hl : pr.1.length < t.length + 1
        all_goals
          simp only [hl, if_true, if_false, ite_true, ite_false]
        · cases hr : r ++ subAllF m r f pr.1 with
          | nil => rw [strContains]; rw [← hr]; simp [hpre]
          | cons a b =>
            rw [strContains, Bool.or_eq_true]
            rw [← hr]
            exact Or.inl (hpre _)
        · cases hr : r ++ c :: subAllF m r f t with
          | nil => rw [strContains]; rw [← hr]; simp [hpre]
          | cons a b =>
            rw [strContains, Bool.or_eq_true]
            rw [← hr]
            exact Or.inl (hpre _)

/-- Containment of a word implies containment of any prefix of it. -/
theorem strContains_of_isPrefixOf :
    ∀ (s w1 w2 : Str), w1.isPrefixOf w2 = true → strContains s w2 = true →
      strContains s w1 = true := by
  intro s
  induction s with
  | nil =>
    intro w1 w2 h12 h
    rw [strContains] at h ⊢
    rw [List.isPrefixOf_iff_prefix] at h12 h ⊢
    have := h12.trans h
    simpa using this
  | cons c t ih =>
    intro w1 w2 h12 h
    rw [strContains, Bool.or_eq_true] at h ⊢
    rcases h with h | h
    · left
      rw [List.isPrefixOf_iff_prefix] at h12 h ⊢
      exact h12.trans h
    · right
      exact ih w1 w2 h12 h

/-- A word is contained in any text starting with it. -/
theorem strContains_self_append (w y : Str) : strContains (w ++ y) w = true := by
  have hp : w.isPrefixOf (w ++ y) = true := by
    rw [List.isPrefixOf_iff_prefix]
    exact List.prefix_append w y
  cases hwy : w ++ y with
  | nil => rw [strContains, ← hwy]; exact hp
  | cons c t => rw [strContains, Bool.or_eq_true]; left; rw [← hwy]; exact hp

/-- Containment is preserved by extending the text on the left. -/
theorem strContains_append_left :
    ∀ (x s w : Str), strContains s w = true → strContains (x ++ s) w = true := by
  intro x
  induction x with
  | nil => intro s w h; simpa using h
  | cons c x ih =>
    intro s w h
    rw [List.cons_append, strContains, Bool.or_eq_true]
    right
    exact ih s w h

/-- The first conjunct of the skip test is subsumed by the second: the
candidate test is equivalent to containing `tenant: \x7b` alone. -/
theorem markerCandidate_eq_short (c : Str) :
    markerCandidate c = strContains c markerShort := by
  rw [markerCandidate]
  cases h : strContains c markerLong with
  | false => simp
  | true =>
    have : strContains c markerShort = true :=
      strContains_of_isPrefixOf c markerShort markerLong (by decide) h
    simp [this]

/- ### Concrete contents used in counterexamples and witnesses -/

def sepNL : Str := ("\n").toList

def blockA : Str := ("vi.mocked(orgContext.requireOrgContext).mockResolvedValue(\x7b tenant: \x7b id: \"t1\" \x7d, organizationId: \"org-A\", \x7d as any);").toList

def blockB : Str := ("vi.mocked(orgContext.requireOrgContext).mockResolvedValue(\x7b tenant: \x7b id: \"t2\" \x7d, organizationId: \"org-B\", \x7d as any);").toList

def orgA : Str := ("\"org-A\"").toList

def orgB : Str := ("\"org-B\"").toList

def orgQ42 : Str := ("\"org-42\"").toList

/-- Test-file content holding two distinct legacy mock blocks. -/
def cexB : Str := blockA ++ sepNL ++ blockB

def rRepl : Str := ("REPL").toList

def cVar : Str := ("const mockOrganizationId = \"org-42\";").toList

def cMarkerOnly : Str := ("tenant: \x7b id: 1").toList

def cNoMarker : Str := ("nothing here at all").toList

/- ### Claim C1 -/

/-- Claim C1, counterexample.  The claim says only the first full match of the
legacy block is substituted and later occurrences are left as they were.  On a
content holding two legacy blocks, Script B rewrites both: the output is the
filled template twice, and the second block (which is not the template) is
gone. -/
theorem fixMocks_first_match_only_cex :
    strContains cexB blockB = true ∧
    processContent cexB = (newTemplate orgA ++ (sepNL ++ newTemplate orgA), true) ∧
    newTemplate orgA ≠ blockB := by
  refine ⟨by decide, ?_, by decide⟩
  have hmv : searchCaptureM mockVarM cexB = none := by decide
  have hold : searchCaptureM oldM cexB = some (some orgA) := by decide
  have horg : orgIdOf cexB = orgA := by
    simp only [orgIdOf, hmv, hold, Option.getD_some]
  have hm1 : oldM st0 (blockA ++ (sepNL ++ blockB)) =
      some (sepNL ++ blockB, some orgA) := by decide
  have hm2 : oldM st0 (blockB ++ ([] : Str)) =
      some (([] : Str), some orgB) := by decide
  have hnm2 : noMatchFrom oldM sepNL (blockB ++ ([] : Str)) = true := by decide
  have hs0 : subAll oldM (newTemplate orgA) [] = [] :=
    subAll_eq_of_nomatch _ _ _ (by decide)
  have step2 : subAll oldM (newTemplate orgA) (sepNL ++ (blockB ++ ([] : Str))) =
      sepNL ++ newTemplate orgA ++ subAll oldM (newTemplate orgA) [] :=
    subAll_decomp oldM (newTemplate orgA) sepNL blockB [] (some orgB) hnm2 hm2
      (by decide)
  have step1 : subAll oldM (newTemplate orgA) (([] : Str) ++ (blockA ++ (sepNL ++ blockB))) =
      ([] : Str) ++ newTemplate orgA ++ subAll oldM (newTemplate orgA) (sepNL ++ blockB) :=
    subAll_decomp oldM (newTemplate orgA) [] blockA (sepNL ++ blockB) (some orgA)
      rfl hm1 (by decide)
  have hfull : subAll oldM (newTemplate orgA) cexB =
      newTemplate orgA ++ (sepNL ++ newTemplate orgA) := by
    have e1 : cexB = ([] : Str) ++ (blockA ++ (sepNL ++ blockB)) := by
      simp [cexB, List.append_assoc]
    rw [e1, step1]
    have e2 : sepNL ++ blockB = sepNL ++ (blockB ++ ([] : Str)) := by simp
    rw [e2, step2, hs0]
    simp [List.append_assoc]
  have hmc : markerCandidate cexB = true := by decide
  have hne : subAll oldM (newTemplate (orgIdOf cexB)) cexB ≠ cexB := by
    rw [horg, hfull]
    intro h
    have hl := congrArg List.length h
    have l1 : (newTemplate orgA).length = 697 := by decide
    have l2 : cexB.length = 235 := by decide
    have l3 : sepNL.length = 1 := by decide
    rw [List.length_append, List.length_append, l1, l2, l3] at hl
    omega
  unfold processContent
  rw [if_pos hmc]
  show (if subAll oldM (newTemplate (orgIdOf cexB)) cexB = cexB then (cexB, false)
        else (subAll oldM (newTemplate (orgIdOf cexB)) cexB, true)) = _
  rw [if_neg hne, horg, hfull]

/-- Claim C1, amended.  Script B substitutes every leftmost non-overlapping
full match of the legacy block, not only the first: whenever the content
splits as `a ++ mm ++ rest` with no match starting inside `a` and `mm` a full
match, the substitution rewrites `mm` to the replacement and keeps going on
`rest`, where any later occurrence is replaced in the same way. -/
theorem fixMocks_sub_replaces_every_match (r a mm rest : Str) (g : Option Str)
    (hnm : noMatchFrom oldM a (mm ++ rest) = true)
    (hm : oldM st0 (mm ++ rest) = some (rest, g))
    (hmm : mm ≠ []) :
    subAll oldM r (a ++ (mm ++ rest)) = a ++ r ++ subAll oldM r rest :=
  subAll_decomp oldM r a mm rest g hnm hm hmm

theorem fixMocks_sub_replaces_every_match_witness :
    noMatchFrom oldM sepNL (blockB ++ ([] : Str)) = true ∧
    oldM st0 (blockB ++ ([] : Str)) = some (([] : Str), some orgB) ∧
    subAll oldM rRepl (sepNL ++ (blockB ++ ([] : Str))) =
      sepNL ++ rRepl ++ subAll oldM rRepl ([] : Str) :=
  ⟨by decide, by decide,
    fixMocks_sub_replaces_every_match rRepl sepNL blockB [] (some orgB)
      (by decide) (by decide) (by decide)⟩

/- ### Claim C2 -/

/-- Claim C2.  The org identifier is chosen with the precedence of lines
43-53: a matching `const mockOrganizationId = ...;` assignment wins, else the
value captured from the legacy block, else the default literal
`"org-uuid-123"`. -/
theorem fixMocks_orgId_precedence (c : Str) (g : Option Str) :
    (searchCaptureM mockVarM c = some g → orgIdOf c = g.getD []) ∧
    (searchCaptureM mockVarM c = none → searchCaptureM oldM c = some g →
      orgIdOf c = g.getD []) ∧
    (searchCaptureM mockVarM c = none → searchCaptureM oldM c = none →
      orgIdOf c = defaultOrgId) := by
  refine ⟨fun h => ?_, fun h1 h2 => ?_, fun h1 h2 => ?_⟩
  · simp only [orgIdOf, h]
  · simp only [orgIdOf, h1, h2]
  · simp only [orgIdOf, h1, h2]

theorem fixMocks_orgId_precedence_witness :
    orgIdOf cVar = orgQ42 ∧ orgIdOf blockA = orgA ∧
    orgIdOf cMarkerOnly = defaultOrgId := by
  refine ⟨?_, ?_, ?_⟩
  · exact (fixMocks_orgId_precedence cVar (some orgQ42)).1 (by decide)
  · exact (fixMocks_orgId_precedence blockA (some orgA)).2.1 (by decide) (by decide)
  · exact (fixMocks_orgId_precedence cMarkerOnly none).2.2 (by decide) (by decide)

/- ### Claim C4 -/

/-- Claim C4.  A file whose content does not contain the (effective) marker
substring `tenant: \x7b` is skipped before any substitution: the content is
returned unchanged and the file is not written. -/
theorem fixMocks_skip_without_marker (c : Str)
    (h : strContains c markerShort = false) :
    processContent c = (c, false) := by
  have hmc : markerCandidate c = false := by
    rw [markerCandidate_eq_short]; exact h
  unfold processContent
  rw [if_neg (by simp [hmc])]

theorem fixMocks_skip_without_marker_witness :
    strContains cNoMarker markerShort = false ∧
    processContent cNoMarker = (cNoMarker, false) :=
  ⟨by decide, fixMocks_skip_without_marker cNoMarker (by decide)⟩

/- ### Claim C9 -/

/-- Claim C9.  When the marker is present but neither the variable assignment
nor the legacy block matches, the default identifier is selected, the
substitution is a no-op, and the file is never written — so the defaulting
path never produces a written file. -/
theorem fixMocks_default_orgId_never_written (c : Str)
    (h1 : strContains c markerShort = true)
    (h2 : searchCaptureM mockVarM c = none)
    (h3 : searchCaptureM oldM c = none) :
    orgIdOf c = defaultOrgId ∧ processContent c = (c, false) := by
  have horg : orgIdOf c = defaultOrgId := by simp only [orgIdOf, h2, h3]
  refine ⟨horg, ?_⟩
  have hmc : markerCandidate c = true := by rw [markerCandidate_eq_short]; exact h1
  have hsub : subAll oldM (newTemplate (orgIdOf c)) c = c :=
    subAll_eq_of_nomatch _ _ _ h3
  unfold processContent
  rw [if_pos hmc]
  show (if subAll oldM (newTemplate (orgIdOf c)) c = c then (c, false)
        else (subAll oldM (newTemplate (orgIdOf c)) c, true)) = (c, false)
  rw [if_pos hsub]

theorem fixMocks_default_orgId_never_written_witness :
    strContains cMarkerOnly markerShort = true ∧
    orgIdOf cMarkerOnly = defaultOrgId ∧
    processContent cMarkerOnly = (cMarkerOnly, false) := by
  have h := fixMocks_default_orgId_never_written cMarkerOnly
    (by decide) (by decide) (by decide)
  exact ⟨by decide, h.1, h.2⟩

/- ### Claim C10 -/

/-- Claim C10.  The two-part skip condition of lines 40-41 is equivalent to the
single test for `tenant: \x7b`: the first checked substring contains the
second, so the first conjunct is redundant, and a file is processed rather
than skipped exactly when the content contains `tenant: \x7b`. -/
theorem fixMocks_marker_check_redundant (c : Str) :
    markerCandidate c = strContains c markerShort :=
  markerCandidate_eq_short c

/- ### Claim C3 -/

def cex3 : Str := ("apiKeyapiKeys,s,").toList

def cw3 : Str := ("apiKeys,  z").toList

/-- Claim C3, counterexample.  Script A is not idempotent: on this content the
destructuring removal `apiKeys,` + whitespace deletes an occurrence whose
removal splices together a fresh occurrence, so a second run changes the text
again (first run yields `apiKeys,`, second run yields the empty text). -/
theorem cleanA_idempotent_cex : cleanA (cleanA cex3) ≠ cleanA cex3 := by decide

/-- Claim C3, amended.  Applying Script A twice yields the same text as
applying it once provided no substitution pattern matches the output of the
first run; the second run then makes no change, does not write, and reports
the no-changes message.  (Without that proviso a deletion can create a new
match, as the counterexample shows.) -/
theorem cleanA_twice_eq_once_of_no_residual_match (c : Str)
    (h : noMatchAllA (cleanA c) = true) :
    cleanA (cleanA c) = cleanA c ∧
    mainA (cleanA c) = (cleanA c, false, noopMsgA) := by
  have hid : cleanA (cleanA c) = cleanA c :=
    foldl_stepSub_eq_of_allNone pattsA (cleanA c) h
  refine ⟨hid, ?_⟩
  unfold mainA
  show (if cleanA (cleanA c) = cleanA c then (cleanA c, false, noopMsgA)
        else (cleanA (cleanA c), true, successMsgA)) = _
  rw [if_pos hid]

theorem cleanA_twice_eq_once_of_no_residual_match_witness :
    noMatchAllA (cleanA cw3) = true ∧
    (cleanA (cleanA cw3) = cleanA cw3 ∧
     mainA (cleanA cw3) = (cleanA cw3, false, noopMsgA)) :=
  ⟨by decide, cleanA_twice_eq_once_of_no_residual_match cw3 (by decide)⟩

/- ### Claim C8 -/

def cHello : Str := ("hello world").toList

/-- Claim C8.  When none of Script A patterns matches a content, the
transformation is the identity, the file is not written, and the no-op message
is reported; and in general Script A writes back exactly when the transformed
content differs from the original. -/
theorem cleanA_nomatch_noop_and_write_iff_change (c d : Str)
    (h : noMatchAllA c = true) :
    (cleanA c = c ∧ mainA c = (c, false, noopMsgA)) ∧
    ((mainA d).2.1 = true ↔ cleanA d ≠ d) := by
  have hid : cleanA c = c := foldl_stepSub_eq_of_allNone pattsA c h
  refine ⟨⟨hid, ?_⟩, ?_⟩
  · simp only [mainA]
    rw [if_pos hid]
  · by_cases hd : cleanA d = d
    · have e : mainA d = (d, false, noopMsgA) := by
        simp only [mainA]
        rw [if_pos hd]
      rw [e]
      simp [hd]
    · have e : mainA d = (cleanA d, true, successMsgA) := by
        simp only [mainA]
        rw [if_neg hd]
      rw [e]
      simp [hd]

theorem cleanA_nomatch_noop_and_write_iff_change_witness :
    noMatchAllA cHello = true ∧
    ((cleanA cHello = cHello ∧ mainA cHello = (cHello, false, noopMsgA)) ∧
     ((mainA cex3).2.1 = true ↔ cleanA cex3 ≠ cex3)) :=
  ⟨by decide, cleanA_nomatch_noop_and_write_iff_change cHello cex3 (by decide)⟩

/- ### Claim C6 -/

def c0A : Str := ("type WebhookEventType = const apiKeysList = await listApiKeys(ctx.org.id);").toList

/-- Claim C6, counterexample.  The claim fails as a statement about every
content containing the loader line: here the earlier `WebhookEventType`
removal consumes the whole line (its lazy star runs to the first semicolon),
so the loader comment never appears in the output. -/
theorem cleanA_loader_line_cex :
    strContains c0A lit4A = true ∧ strContains (cleanA c0A) r4A = false :=
  ⟨by decide, by decide⟩

/-- Claim C6, amended.  For a content containing the loader line on which no
other removal pattern matches (before or after the loader substitution),
Script A replaces the loader line with the removal comment: the whole run
equals that single substitution, the content strictly shrinks and so differs
from the original, the file is written with the success message, and the
comment occurs in the output. -/
theorem cleanA_loader_line_replacement (c : Str)
    (h1 : allNone pattsA1 c = true)
    (h2 : allNone pattsA2 (subAll m4A r4A c) = true)
    (h3 : strContains c lit4A = true) :
    cleanA c = subAll m4A r4A c ∧ cleanA c ≠ c ∧
    mainA c = (cleanA c, true, successMsgA) ∧
    strContains (cleanA c) r4A = true := by
  have hm4 : ∀ s pr, m4A st0 s = some pr →
      pr.1.length + r4A.length < s.length := by
    intro s pr h
    simp only [m4A] at h
    rw [mkMatcher_lit] at h
    by_cases hp : lit4A.isPrefixOf s
    · rw [if_pos hp] at h
      have hle : lit4A.length ≤ s.length :=
        (List.isPrefixOf_iff_prefix.mp hp).length_le
      have hpr := Option.some.inj h
      subst hpr
      have h50 : lit4A.length = 50 := by decide
      have h37 : r4A.length = 37 := by decide
      simp only [List.length_drop]
      rw [h50, h37]
      rw [h50] at hle
      omega
    · rw [if_neg hp] at h
      exact absurd h (by simp)
  have hstage : cleanA c = subAll m4A r4A c := by
    unfold cleanA pattsA
    rw [List.foldl_append]
    rw [foldl_stepSub_eq_of_allNone pattsA1 c h1]
    rw [List.foldl_cons]
    exact foldl_stepSub_eq_of_allNone pattsA2 _ h2
  have hsearch : searchCaptureM m4A c ≠ none :=
    searchCaptureM_lit_isSome c lit4A h3
  have hlt : (subAll m4A r4A c).length < c.length :=
    subAllF_length_lt m4A r4A hm4 (c.length + 1) c (Nat.lt_succ_self _) hsearch
  have hne : cleanA c ≠ c := by
    rw [hstage]
    intro h
    rw [h] at hlt
    exact Nat.lt_irrefl _ hlt
  refine ⟨hstage, hne, ?_, ?_⟩
  · unfold mainA
    show (if cleanA c = c then (c, false, noopMsgA)
          else (cleanA c, true, successMsgA)) = _
    rw [if_neg hne]
  · rw [hstage]
    exact subAllF_contains_repl m4A r4A (c.length + 1) c (Nat.lt_succ_self _) hsearch

def croute : Str := ("export async function loader() \x7b\n  const apiKeysList = await listApiKeys(ctx.org.id);\n  return json(\x7b ok: true \x7d);\n\x7d\n").toList

theorem cleanA_loader_line_replacement_witness :
    (allNone pattsA1 croute = true ∧
     allNone pattsA2 (subAll m4A r4A croute) = true ∧
     strContains croute lit4A = true) ∧
    (cleanA croute = subAll m4A r4A croute ∧ cleanA croute ≠ croute ∧
     mainA croute = (cleanA croute, true, successMsgA) ∧
     strContains (cleanA croute) r4A = true) :=
  ⟨⟨by decide, by decide, by decide⟩,
   cleanA_loader_line_replacement croute (by decide) (by decide) (by decide)⟩

/- ### Claim C7 -/

/-- Claim C7.  An exception while processing one file is caught: the error
message names that path, the file does not contribute to the count, and every
file before and after it is processed exactly as it would be without the
failing file. -/
theorem runB_error_isolated (pre post : List (String × Option Str)) (p : String) :
    runB (pre ++ (p, none) :: post) =
      ((runB pre).1 + (runB post).1,
       (runB pre).2 ++ ("Error processing " ++ p) :: (runB post).2) := by
  induction pre with
  | nil => simp [runB]
  | cons q pre ih =>
    obtain ⟨qp, qc⟩ := q
    cases qc with
    | none =>
      have e1 : runB ((qp, none) :: (pre ++ (p, none) :: post)) =
          ((runB (pre ++ (p, none) :: post)).1,
           ("Error processing " ++ qp) :: (runB (pre ++ (p, none) :: post)).2) := rfl
      have e2 : runB ((qp, none) :: pre) =
          ((runB pre).1, ("Error processing " ++ qp) :: (runB pre).2) := rfl
      rw [List.cons_append, e1, e2, ih]
      simp
    | some c =>
      have e1 : runB ((qp, some c) :: (pre ++ (p, none) :: post)) =
          (if (processContent c).2 = true
           then ((runB (pre ++ (p, none) :: post)).1 + 1,
                 ("Fixed " ++ qp) :: (runB (pre ++ (p, none) :: post)).2)
           else ((runB (pre ++ (p, none) :: post)).1,
                 (runB (pre ++ (p, none) :: post)).2)) := rfl
      have e2 : runB ((qp, some c) :: pre) =
          (if (processContent c).2 = true
           then ((runB pre).1 + 1, ("Fixed " ++ qp) :: (runB pre).2)
           else ((runB pre).1, (runB pre).2)) := rfl
      rw [List.cons_append, e1, e2]
      by_cases hw : (processContent c).2 = true
      · rw [if_pos hw, if_pos hw, ih]
        simp only [Prod.mk.injEq]
        refine ⟨by omega, by simp⟩
      · rw [if_neg hw, if_neg hw, ih]

/- ### Claim C5 -/

def c5pre : Str := ("const mockOrganizationId = \"org-42\";\n\n").toList

def c5block : Str := ("vi.mocked(orgContext.requireOrgContext).mockResolvedValue(\x7b tenant: \x7b id: mockOrganizationId \x7d, organizationId: mockOrganizationId, \x7d as any);").toList

/-- Test-file content of the end-to-end example: the explicit
`mockOrganizationId` assignment followed by a legacy mock block. -/
def c5 : Str := c5pre ++ c5block

def orgVarName : Str := ("mockOrganizationId").toList

def c5out : Str := c5pre ++ newTemplate orgQ42

def orgFrag : Str := ("org: \x7b id: ").toList ++ orgQ42 ++ (", name: \"Test Org\"").toList

/-- Claim C5.  On the example content Script B rewrites the legacy block into
the new template filled with the extracted identifier `"org-42"` (captured
with its quotes): the new mock block contains `org: ... id: "org-42" ...`, the
file counts as fixed, the running count grows by exactly one and the `Fixed`
message names the path. -/
theorem fixMocks_end_to_end_example (p : String) (rest : List (String × Option Str)) :
    processContent c5 = (c5out, true) ∧
    strContains c5out orgFrag = true ∧
    runB ((p, some c5) :: rest) =
      ((runB rest).1 + 1, ("Fixed " ++ p) :: (runB rest).2) := by
  have hmv : searchCaptureM mockVarM c5 = some (some orgQ42) := by decide
  have horg : orgIdOf c5 = orgQ42 := by
    simp only [orgIdOf, hmv, Option.getD_some]
  have hm5 : oldM st0 (c5block ++ ([] : Str)) =
      some (([] : Str), some orgVarName) := by decide
  have hnm5 : noMatchFrom oldM c5pre (c5block ++ ([] : Str)) = true := by decide
  have hs0 : subAll oldM (newTemplate orgQ42) [] = [] :=
    subAll_eq_of_nomatch _ _ _ (by decide)
  have step : subAll oldM (newTemplate orgQ42) (c5pre ++ (c5block ++ ([] : Str))) =
      c5pre ++ newTemplate orgQ42 ++ subAll oldM (newTemplate orgQ42) [] :=
    subAll_decomp oldM (newTemplate orgQ42) c5pre c5block [] (some orgVarName)
      hnm5 hm5 (by decide)
  have hfull : subAll oldM (newTemplate orgQ42) c5 = c5out := by
    have e : c5 = c5pre ++ (c5block ++ ([] : Str)) := by simp [c5]
    rw [e, step, hs0]
    simp [c5out]
  have hmc : markerCandidate c5 = true := by decide
  have hne : subAll oldM (newTemplate (orgIdOf c5)) c5 ≠ c5 := by
    rw [horg, hfull]
    intro h
    have hl := congrArg List.length h
    have l1 : c5out.length = 736 := by decide
    have l2 : c5.length = 180 := by decide
    rw [l1, l2] at hl
    omega
  have hpc : processContent c5 = (c5out, true) := by
    unfold processContent
    rw [if_pos hmc]
    show (if subAll oldM (newTemplate (orgIdOf c5)) c5 = c5 then (c5, false)
          else (subAll oldM (newTemplate (orgIdOf c5)) c5, true)) = _
    rw [if_neg hne, horg, hfull]
  have hocc : strContains c5out orgFrag = true := by
    have e : c5out = (c5pre ++ tmplPre.take 66) ++ (orgFrag ++ tmplPost.drop 18) := by
      decide
    rw [e]
    exact strContains_append_left _ _ _ (strContains_self_append orgFrag _)
  refine ⟨hpc, hocc, ?_⟩
  simp [runB, hpc]

end Scripts
